import Mathlib

/-!
  Verification of the Cortex AI front-end query pipeline.

  The definitions below are a shallow embedding of the stream-processing
  logic of `ui/app/page.tsx` (the `handleSubmit` handler and the
  `nodeToConfig` display mapping), together with a spec-modelled view of
  the backend ingestion endpoint `submit_document`, which is documented in
  the README but whose implementation is not among the reviewed sources.
-/

namespace CortexAI

/-- Status of one reasoning step, from the `ReasoningStep` type of
`ui/app/page.tsx` (running | finished | error). -/
inductive Status where
  | running
  | finished
  | error
deriving DecidableEq, Repr

/-- One reasoning step, from the `ReasoningStep` type of `ui/app/page.tsx`:
a node name, a status, and an optional timestamp. -/
structure ReasoningStep where
  node : String
  status : Status
  timestamp : Option Nat
deriving DecidableEq, Repr

/-- The component state touched by `handleSubmit` in `ui/app/page.tsx`:
the question input, the reasoning-step list, the final answer, the
loading flag and the error message. -/
structure AppState where
  question : String
  reasoningSteps : List ReasoningStep
  finalAnswer : String
  isLoading : Bool
  error : String
deriving DecidableEq, Repr

/-- One successfully JSON-parsed SSE data payload: an object carrying a
`type` field and a `content` field, as produced by `JSON.parse(jsonString)`
in `handleSubmit`. A line whose payload fails to parse is represented as
`none` at the `Option RawEvent` boundary. -/
structure RawEvent where
  type : String
  content : String
deriving DecidableEq, Repr

/-- Pattern `pat` occurs at the start of `s` (character lists). -/
def leadsWith : List Char → List Char → Bool
  | _, [] => true
  | [], _ :: _ => false
  | a :: s, b :: pat => a == b && leadsWith s pat

/-- Pattern `pat` occurs somewhere inside `s` (character lists). -/
def containsSeq : List Char → List Char → Bool
  | [], pat => pat.isEmpty
  | a :: s, pat => leadsWith (a :: s) pat || containsSeq s pat

/-- JS `s.includes(pat)` on strings. -/
def jsIncludes (s pat : String) : Bool :=
  containsSeq s.toList pat.toList

/-- JS `s.toLowerCase()`; the patterns matched against in `handleSubmit`
are ASCII, for which per-character lowering coincides. -/
def jsToLower (s : String) : String :=
  String.mk (s.toList.map Char.toLower)

/-- Lines 178-180 of `ui/app/page.tsx`: if the step list is nonempty and
its last element has status running, that last element is replaced by a
copy with status finished; otherwise the list is unchanged. -/
def finishTrailing : List ReasoningStep → List ReasoningStep
  | [] => []
  | [s] =>
    if s.status == Status.running then [{ s with status := Status.finished }] else [s]
  | s :: t :: rest => s :: finishTrailing (t :: rest)

/-- Lines 182-188 of `ui/app/page.tsx`: the step pushed for a thought
payload, if any. The lowered content is tested for the substrings
"plan", "executing step", "synthesizing" in that order. -/
def thoughtStep (thought : String) (now : Nat) : Option ReasoningStep :=
  if jsIncludes (jsToLower thought) "plan" then
    some { node := "router", status := Status.running, timestamp := some now }
  else if jsIncludes (jsToLower thought) "executing step" then
    some { node := "graph", status := Status.running, timestamp := some now }
  else if jsIncludes (jsToLower thought) "synthesizing" then
    some { node := "responder", status := Status.running, timestamp := some now }
  else
    none

/-- The `setReasoningSteps` updater for a thought envelope (lines 176-190):
finish a trailing running step, then push the dispatched step if any. -/
def processThought (steps : List ReasoningStep) (thought : String) (now : Nat) :
    List ReasoningStep :=
  finishTrailing steps ++ (thoughtStep thought now).toList

/-- Processing of one SSE data line by `handleSubmit` (lines 166-202).
`none` stands for a payload on which `JSON.parse` threw: the exception is
caught, logged, and the state is left unchanged. A parsed event is
dispatched on its `type` field; types other than thought and answer fall
through with no state change. -/
def processLine (st : AppState) (p : Option RawEvent) (now : Nat) : AppState :=
  match p with
  | none => st
  | some ev =>
    if ev.type == "thought" then
      { st with reasoningSteps := processThought st.reasoningSteps ev.content now }
    else if ev.type == "answer" then
      { st with
        finalAnswer := ev.content,
        reasoningSteps := st.reasoningSteps.map fun s =>
          if s.status == Status.running then { s with status := Status.finished } else s }
    else
      st

/-- Processing of a sequence of SSE data lines in arrival order, each
paired with the `Date.now()` value observed when it is handled. -/
def processLines (st : AppState) (ls : List (Option RawEvent × Nat)) : AppState :=
  ls.foldl (fun s p => processLine s p.1 p.2) st

/-- Display configuration returned by `nodeToConfig` (lines 104-137 of
`ui/app/page.tsx`). The JSX icon element is represented by the name of
the icon component it renders. -/
structure NodeConfig where
  icon : String
  color : String
  label : String
  description : String
deriving DecidableEq, Repr

/-- Names of the members every plain JS object literal inherits from
`Object.prototype`. Property lookup on the `configs` literal of
`nodeToConfig` traverses the prototype chain, so these names yield a
truthy inherited value (a function, or `Object.prototype` itself for
the `__proto__` accessor) instead of `undefined`. -/
def objectPrototypeMembers : List String :=
  ["constructor", "hasOwnProperty", "isPrototypeOf", "propertyIsEnumerable",
   "toLocaleString", "toString", "valueOf", "__proto__",
   "__defineGetter__", "__defineSetter__", "__lookupGetter__",
   "__lookupSetter__"]

/-- Result of the lookup `configs[node] || fallback` in `nodeToConfig`:
either a configuration object (an own key of the literal, or the
fallback), or a truthy member inherited from `Object.prototype`, which
short-circuits the `||` but is not a configuration and carries no
`label` field. -/
inductive NodeConfigResult where
  | config (c : NodeConfig)
  | protoMember (name : String)
deriving DecidableEq, Repr

/-- The `label` field the UI reads off the lookup result: defined for a
configuration object, `undefined` for an inherited prototype member. -/
def NodeConfigResult.label? : NodeConfigResult → Option String
  | NodeConfigResult.config c => some c.label
  | NodeConfigResult.protoMember _ => none

/-- The `nodeToConfig` mapping of `ui/app/page.tsx`: JS property lookup
of the node name on the `configs` object literal. Own keys (the four
declared names) return their configuration; names inherited from
`Object.prototype` return the truthy inherited member, so the `||`
fallback is not taken for them; every other name looks up as `undefined`
and takes the fallback whose label is the input itself. -/
def nodeToConfig (node : String) : NodeConfigResult :=
  if node == "router" then
    NodeConfigResult.config
      { icon := "Network", color := "from-slate-400 to-slate-500",
        label := "Query Router", description := "Semantic analysis" }
  else if node == "vectorstore" then
    NodeConfigResult.config
      { icon := "Database", color := "from-slate-400 to-slate-500",
        label := "Vector Store", description := "Embedding retrieval" }
  else if node == "graph" then
    NodeConfigResult.config
      { icon := "Activity", color := "from-slate-400 to-slate-500",
        label := "Knowledge Graph", description := "Relation traversal" }
  else if node == "responder" then
    NodeConfigResult.config
      { icon := "BrainCircuit", color := "from-slate-400 to-slate-500",
        label := "Response Engine", description := "Output synthesis" }
  else if node ∈ objectPrototypeMembers then
    NodeConfigResult.protoMember node
  else
    NodeConfigResult.config
      { icon := "Cpu", color := "from-slate-400 to-slate-500",
        label := node, description := "Processing" }

/-- Outcome of the fetch and stream-read performed by `handleSubmit`:
the data lines that were delivered and handled, and whether the fetch or
a subsequent read then threw (a fetch that fails outright, or a missing
response body, is the case of no lines and a throw). -/
structure FetchOutcome where
  lines : List (Option RawEvent × Nat)
  throwsAfter : Bool
deriving DecidableEq, Repr

/-- The message assigned to the error state by the catch block of
`handleSubmit` (line 206 of `ui/app/page.tsx`). -/
def connectionErrorMessage : String :=
  "Failed to connect to the Cortex AI agent. Please ensure the backend is running."

/-- The `handleSubmit` handler of `ui/app/page.tsx` (lines 139-210): bail
out when the question is empty or a query is already loading; otherwise
reset the per-query state, process the delivered lines, set the error
message if the fetch or read threw, and finally clear the loading flag. -/
def handleSubmit (st : AppState) (f : FetchOutcome) : AppState :=
  if st.question == "" || st.isLoading then st
  else
    let st1 : AppState :=
      { st with isLoading := true, error := "", finalAnswer := "", reasoningSteps := [] }
    let st2 := processLines st1 f.lines
    let st3 :=
      if f.throwsAfter then { st2 with error := connectionErrorMessage } else st2
    { st3 with isLoading := false }

/-- Step predicate for the C8 invariant: the status is not running. -/
def notRunning (s : ReasoningStep) : Bool :=
  s.status != Status.running

/-- Invariant of the step list: every element except possibly the last
has a status other than running. -/
def runningOnlyLast (l : List ReasoningStep) : Bool :=
  l.dropLast.all notRunning

/-- Step predicate for the C10 invariant: the node is one of the three
names reachable from the stream path and the status is running or
finished. -/
def streamStepOk (s : ReasoningStep) : Bool :=
  (s.node == "router" || s.node == "graph" || s.node == "responder") &&
  (s.status == Status.running || s.status == Status.finished)

/-- Modelled from the spec: the backend Ingestion Coordinator and its
`submit_document` endpoint are not among the reviewed source files (only
the README documents them). A document is its payload size in bytes and
its format tag. -/
structure Document where
  size : Nat
  format : String
deriving DecidableEq, Repr

/-- Modelled from the spec: the 6MB size limit of `submit_document`. -/
def sizeLimitBytes : Nat := 6 * 1024 * 1024

/-- Modelled from the spec: the supported document formats (the README
names PDF upload as the document ingestion path). -/
def supportedFormats : List String := ["pdf"]

/-- Modelled from the spec: the observable backend ingestion state needed
by C7, namely the queue of scheduled background extraction tasks. -/
structure IngestionState where
  scheduled : List String
deriving DecidableEq, Repr

/-- Modelled from the spec: the result of a `submit_document` call, either
a ValidationError with a message or an acceptance carrying the source id. -/
inductive SubmitOutcome where
  | validationError (message : String)
  | accepted (sourceId : String)
deriving DecidableEq, Repr

/-- Modelled from the spec: `submit_document(bytes, size_limit=6MB)` fails
with ValidationError if over limit or of unsupported format, before any
background work starts; an accepted document is appended to the background
processing queue and the call returns immediately. -/
def submit_document (st : IngestionState) (doc : Document) (sourceId : String) :
    IngestionState × SubmitOutcome :=
  if sizeLimitBytes < doc.size then
    (st, SubmitOutcome.validationError "payload exceeds size limit")
  else if doc.format ∈ supportedFormats then
    ({ scheduled := st.scheduled ++ [sourceId] }, SubmitOutcome.accepted sourceId)
  else
    (st, SubmitOutcome.validationError "unsupported format")

/-! ## Helper lemmas about `finishTrailing` -/

/-- `finishTrailing` preserves the length of the step list. -/
theorem finishTrailing_length : ∀ l : List ReasoningStep,
    (finishTrailing l).length = l.length
  | [] => rfl
  | [s] => by by_cases h : s.status == Status.running <;> simp [finishTrailing, h]
  | a :: b :: t => by
      simp [finishTrailing, finishTrailing_length (b :: t)]

/-- Elementwise characterisation of `finishTrailing`: every element is kept
as is, except the last one, which is switched to finished when running. -/
theorem finishTrailing_getElem? : ∀ (l : List ReasoningStep) (i : Nat),
    (finishTrailing l)[i]? =
      l[i]?.map (fun s =>
        if i + 1 = l.length ∧ s.status = Status.running
        then { s with status := Status.finished } else s)
  | [], i => by simp [finishTrailing]
  | [s], 0 => by
      by_cases h : s.status = Status.running <;>
        simp [finishTrailing, h]
  | [s], i + 1 => by
      simp only [finishTrailing]
      split <;> simp
  | a :: b :: t, 0 => by
      simp [finishTrailing]
  | a :: b :: t, i + 1 => by
      have ih := finishTrailing_getElem? (b :: t) i
      simp only [finishTrailing, List.getElem?_cons_succ, ih]
      simp

/-- Node names are untouched by `finishTrailing`. -/
theorem finishTrailing_node (l : List ReasoningStep) (i : Nat) :
    ((finishTrailing l)[i]?).map ReasoningStep.node =
      (l[i]?).map ReasoningStep.node := by
  rw [finishTrailing_getElem?]
  cases h : l[i]? with
  | none => rfl
  | some s =>
    simp only [Option.map_some']
    split <;> rfl

/-- Any step dispatched by `thoughtStep` has status running. -/
theorem thoughtStep_status (c : String) (now : Nat) (s : ReasoningStep)
    (h : thoughtStep c now = some s) : s.status = Status.running := by
  unfold thoughtStep at h
  split at h
  · cases h; rfl
  · split at h
    · cases h; rfl
    · split at h
      · cases h; rfl
      · cases h

/-- Any step dispatched by `thoughtStep` has one of the three stream-path
node names. -/
theorem thoughtStep_node (c : String) (now : Nat) (s : ReasoningStep)
    (h : thoughtStep c now = some s) :
    s.node = "router" ∨ s.node = "graph" ∨ s.node = "responder" := by
  unfold thoughtStep at h
  split at h
  · cases h; exact Or.inl rfl
  · split at h
    · cases h; exact Or.inr (Or.inl rfl)
    · split at h
      · cases h; exact Or.inr (Or.inr rfl)
      · cases h

/-- The updater applied to the step list by an answer envelope. -/
def finishRunning (s : ReasoningStep) : ReasoningStep :=
  if s.status == Status.running then { s with status := Status.finished } else s

/-- `processLine` either leaves the step list unchanged, rewrites it as a
thought envelope does, or rewrites it as an answer envelope does. -/
theorem processLine_steps_cases (st : AppState) (p : Option RawEvent) (now : Nat) :
    (processLine st p now).reasoningSteps = st.reasoningSteps ∨
    (∃ c, (processLine st p now).reasoningSteps =
      processThought st.reasoningSteps c now) ∨
    (processLine st p now).reasoningSteps = st.reasoningSteps.map finishRunning := by
  cases p with
  | none => exact Or.inl rfl
  | some ev =>
    by_cases h1 : ev.type = "thought"
    · exact Or.inr (Or.inl ⟨ev.content, by simp [processLine, h1]⟩)
    · by_cases h2 : ev.type = "answer"
      · refine Or.inr (Or.inr ?_)
        simp [processLine, h1, h2, finishRunning]
      · exact Or.inl (by simp [processLine, h1, h2])

/-- Per-index relation between the step list before and after one line
is processed: every element of the new list is either the old element at
the same index, the old element switched from running to finished, or a
freshly dispatched thought step sitting past the old length. -/
theorem processLine_step_rel (st : AppState) (p : Option RawEvent) (now : Nat)
    (i : Nat) (s' : ReasoningStep)
    (h' : (processLine st p now).reasoningSteps[i]? = some s') :
    (∃ s : ReasoningStep, st.reasoningSteps[i]? = some s ∧
      (s' = s ∨ (s.status = Status.running ∧
        s' = { s with status := Status.finished }))) ∨
    (st.reasoningSteps.length ≤ i ∧ ∃ c, thoughtStep c now = some s') := by
  rcases processLine_steps_cases st p now with hc | ⟨c, hc⟩ | hc
  · rw [hc] at h'
    exact Or.inl ⟨s', h', Or.inl rfl⟩
  · rw [hc] at h'
    unfold processThought at h'
    by_cases hi : i < st.reasoningSteps.length
    · rw [List.getElem?_append_left
        (by rw [finishTrailing_length]; exact hi)] at h'
      rw [finishTrailing_getElem?] at h'
      cases hsi : st.reasoningSteps[i]? with
      | none => rw [hsi] at h'; cases h'
      | some s =>
        rw [hsi] at h'
        simp only [Option.map_some', Option.some.injEq] at h'
        refine Or.inl ⟨s, rfl, ?_⟩
        by_cases hcond : i + 1 = st.reasoningSteps.length ∧
            s.status = Status.running
        · rw [if_pos hcond] at h'
          exact Or.inr ⟨hcond.2, h'.symm⟩
        · rw [if_neg hcond] at h'
          exact Or.inl h'.symm
    · push_neg at hi
      rw [List.getElem?_append_right
        (by rw [finishTrailing_length]; exact hi)] at h'
      rw [finishTrailing_length] at h'
      refine Or.inr ⟨hi, c, ?_⟩
      cases hts : thoughtStep c now with
      | none => rw [hts] at h'; simp at h'
      | some stp =>
        rw [hts] at h'
        cases hidx : i - st.reasoningSteps.length with
        | zero =>
          rw [hidx] at h'
          simp only [Option.toList, List.getElem?_cons_zero,
            Option.some.injEq] at h'
          rw [h']
        | succ n =>
          rw [hidx] at h'
          simp [Option.toList] at h'
  · rw [hc] at h'
    rw [List.getElem?_map] at h'
    cases hsi : st.reasoningSteps[i]? with
    | none => rw [hsi] at h'; cases h'
    | some s =>
      rw [hsi] at h'
      simp only [Option.map_some', Option.some.injEq] at h'
      refine Or.inl ⟨s, rfl, ?_⟩
      unfold finishRunning at h'
      by_cases hcond : (s.status == Status.running) = true
      · rw [if_pos hcond] at h'
        exact Or.inr ⟨by simpa using hcond, h'.symm⟩
      · rw [if_neg hcond] at h'
        exact Or.inl h'.symm

/-- Processing one line never shrinks the step list. -/
theorem processLine_length_mono (st : AppState) (p : Option RawEvent)
    (now : Nat) :
    st.reasoningSteps.length ≤ (processLine st p now).reasoningSteps.length := by
  rcases processLine_steps_cases st p now with hc | ⟨c, hc⟩ | hc
  · rw [hc]
  · rw [hc]
    unfold processThought
    simp [finishTrailing_length]
  · rw [hc]
    simp

/-- Processing one line keeps the node name at every existing index. -/
theorem processLine_node_preserved (st : AppState) (p : Option RawEvent)
    (now : Nat) (i : Nat) (hi : i < st.reasoningSteps.length) :
    ((processLine st p now).reasoningSteps[i]?).map ReasoningStep.node =
      (st.reasoningSteps[i]?).map ReasoningStep.node := by
  rcases processLine_steps_cases st p now with hc | ⟨c, hc⟩ | hc
  · rw [hc]
  · rw [hc]
    unfold processThought
    rw [List.getElem?_append_left (by rw [finishTrailing_length]; exact hi)]
    exact finishTrailing_node _ _
  · rw [hc, List.getElem?_map]
    cases st.reasoningSteps[i]? with
    | none => rfl
    | some s =>
      simp only [Option.map_some', Option.some.injEq]
      unfold finishRunning
      split <;> rfl

/-- The error message is untouched by line processing. -/
theorem processLine_error_eq (st : AppState) (p : Option RawEvent) (now : Nat) :
    (processLine st p now).error = st.error := by
  cases p with
  | none => rfl
  | some ev =>
    by_cases h1 : ev.type = "thought"
    · simp [processLine, h1]
    · by_cases h2 : ev.type = "answer" <;> simp [processLine, h1, h2]

/-- The error message is untouched by processing any line sequence. -/
theorem processLines_error_eq (ls : List (Option RawEvent × Nat)) :
    ∀ st : AppState, (processLines st ls).error = st.error := by
  induction ls with
  | nil => intro st; rfl
  | cons hd tl ih =>
    intro st
    have heq : processLines st (hd :: tl) =
        processLines (processLine st hd.1 hd.2) tl := rfl
    rw [heq, ih, processLine_error_eq]

/-- If only the last step may be running, `finishTrailing` leaves no
running step at all. -/
theorem finishTrailing_all_notRunning : ∀ l : List ReasoningStep,
    runningOnlyLast l = true → (finishTrailing l).all notRunning = true
  | [], _ => rfl
  | [s], _ => by
    cases h : s.status == Status.running
    · simp [finishTrailing, h, notRunning, bne]
    · simp [finishTrailing, h, notRunning]
  | a :: b :: t, h => by
    have h' := h
    simp only [runningOnlyLast, List.dropLast_cons₂, List.all_cons,
      Bool.and_eq_true] at h'
    have ih := finishTrailing_all_notRunning (b :: t) h'.2
    simp [finishTrailing, List.all_cons, h'.1, ih]

/-- A list with no running step at all satisfies `runningOnlyLast`. -/
theorem runningOnlyLast_of_all (l : List ReasoningStep)
    (h : l.all notRunning = true) : runningOnlyLast l = true := by
  unfold runningOnlyLast
  rw [List.all_eq_true] at h ⊢
  intro x hx
  exact h x (List.dropLast_subset l hx)

/-- The answer-envelope updater leaves no running step. -/
theorem map_finishRunning_all_notRunning (l : List ReasoningStep) :
    (l.map finishRunning).all notRunning = true := by
  rw [List.all_map, List.all_eq_true]
  intro s _
  simp only [Function.comp]
  unfold finishRunning notRunning
  cases h : s.status == Status.running <;> simp [h, bne]

/-- Processing one line preserves the single-trailing-running invariant. -/
theorem processLine_runningOnlyLast (st : AppState) (p : Option RawEvent)
    (now : Nat) (h : runningOnlyLast st.reasoningSteps = true) :
    runningOnlyLast (processLine st p now).reasoningSteps = true := by
  rcases processLine_steps_cases st p now with hc | ⟨c, hc⟩ | hc
  · rw [hc]; exact h
  · rw [hc]
    unfold processThought
    have hall := finishTrailing_all_notRunning st.reasoningSteps h
    cases hts : thoughtStep c now with
    | none =>
      simp only [Option.toList_none, List.append_nil]
      exact runningOnlyLast_of_all _ hall
    | some stp =>
      simp only [Option.toList_some]
      unfold runningOnlyLast
      rw [List.dropLast_concat]
      exact hall
  · rw [hc]
    exact runningOnlyLast_of_all _ (map_finishRunning_all_notRunning _)

/-- Processing any line sequence preserves the invariant. -/
theorem processLines_runningOnlyLast (ls : List (Option RawEvent × Nat)) :
    ∀ st : AppState, runningOnlyLast st.reasoningSteps = true →
      runningOnlyLast (processLines st ls).reasoningSteps = true := by
  induction ls with
  | nil => intro st h; exact h
  | cons hd tl ih =>
    intro st h
    exact ih _ (processLine_runningOnlyLast st hd.1 hd.2 h)

/-- Under the invariant, at most one step is running. -/
theorem runningOnlyLast_count : ∀ l : List ReasoningStep,
    runningOnlyLast l = true →
    (l.filter (fun s => s.status == Status.running)).length ≤ 1
  | [], _ => by simp
  | [s], _ => by
    cases h : s.status == Status.running <;> simp [List.filter_cons, h]
  | a :: b :: t, h => by
    have h' := h
    simp only [runningOnlyLast, List.dropLast_cons₂, List.all_cons,
      Bool.and_eq_true] at h'
    have ha : (a.status == Status.running) = false := by
      have h1 := h'.1
      unfold notRunning at h1
      simpa [bne] using h1
    rw [List.filter_cons_of_neg (by simp [ha])]
    exact runningOnlyLast_count (b :: t) h'.2

/-- Under the invariant, a running step can only sit at the last index. -/
theorem runningOnlyLast_last_index : ∀ l : List ReasoningStep,
    runningOnlyLast l = true → ∀ (i : Nat) (s : ReasoningStep),
      l[i]? = some s → s.status = Status.running → i + 1 = l.length
  | [], _, i, s, hi, _ => by cases hi
  | [a], _, i, s, hi, hrun => by
    cases i with
    | zero => rfl
    | succ n => cases hi
  | a :: b :: t, h, i, s, hi, hrun => by
    have h' := h
    simp only [runningOnlyLast, List.dropLast_cons₂, List.all_cons,
      Bool.and_eq_true] at h'
    cases i with
    | zero =>
      simp only [List.getElem?_cons_zero, Option.some.injEq] at hi
      subst hi
      have h1 := h'.1
      unfold notRunning at h1
      rw [hrun] at h1
      simp at h1
    | succ n =>
      simp only [List.getElem?_cons_succ] at hi
      have := runningOnlyLast_last_index (b :: t) h'.2 n s hi hrun
      simp only [List.length_cons] at this ⊢
      omega

/-! ## Claim theorems -/

/-- C5 counterexample: "toString" is none of the four declared node
names, yet `nodeToConfig` does not return the fallback configuration
whose label is the input: the lookup hits the truthy inherited
`Object.prototype.toString`, whose label is undefined. This refutes the
claim's universal clause over all other input strings. -/
theorem C5_nodeToConfig_counterexample :
    ("toString" : String) ≠ "router" ∧ ("toString" : String) ≠ "vectorstore" ∧
    ("toString" : String) ≠ "graph" ∧ ("toString" : String) ≠ "responder" ∧
    nodeToConfig "toString" = NodeConfigResult.protoMember "toString" ∧
    (nodeToConfig "toString").label? ≠ some "toString" := by
  decide

/-- C5 amended: `nodeToConfig` maps the four declared node names to their
fixed labels; every other input string that is not the name of a member
inherited from `Object.prototype` takes the fallback configuration whose
label equals the input string itself; an inherited member name returns
the truthy inherited member, which is not a configuration and has no
label. -/
theorem C5_nodeToConfig_total_amended :
    (nodeToConfig "router").label? = some "Query Router" ∧
    (nodeToConfig "vectorstore").label? = some "Vector Store" ∧
    (nodeToConfig "graph").label? = some "Knowledge Graph" ∧
    (nodeToConfig "responder").label? = some "Response Engine" ∧
    (∀ node : String, node ≠ "router" → node ≠ "vectorstore" →
      node ≠ "graph" → node ≠ "responder" → node ∉ objectPrototypeMembers →
      nodeToConfig node = NodeConfigResult.config
        { icon := "Cpu", color := "from-slate-400 to-slate-500",
          label := node, description := "Processing" }) ∧
    (∀ node : String, node ≠ "router" → node ≠ "vectorstore" →
      node ≠ "graph" → node ≠ "responder" → node ∈ objectPrototypeMembers →
      nodeToConfig node = NodeConfigResult.protoMember node) := by
  refine ⟨by decide, by decide, by decide, by decide, ?_, ?_⟩
  · intro node h1 h2 h3 h4 h5
    simp [nodeToConfig, h1, h2, h3, h4, h5]
  · intro node h1 h2 h3 h4 h5
    simp [nodeToConfig, h1, h2, h3, h4, h5]

/-- Witness for amended C5: "planner" takes the fallback with itself as
label, while the inherited name "valueOf" takes the prototype member. -/
theorem C5_nodeToConfig_total_amended_witness :
    nodeToConfig "planner" = NodeConfigResult.config
      { icon := "Cpu", color := "from-slate-400 to-slate-500",
        label := "planner", description := "Processing" } ∧
    nodeToConfig "valueOf" = NodeConfigResult.protoMember "valueOf" :=
  ⟨C5_nodeToConfig_total_amended.2.2.2.2.1 "planner" (by decide) (by decide)
      (by decide) (by decide) (by decide),
   C5_nodeToConfig_total_amended.2.2.2.2.2 "valueOf" (by decide) (by decide)
      (by decide) (by decide) (by decide)⟩

/-- C1: an answer envelope sets the final answer to the envelope content
and is terminal for the step list: no step is appended, every running
step becomes finished, and every finished step keeps its status. -/
theorem C1_answer_terminal (st : AppState) (c : String) (now : Nat) :
    (processLine st (some { type := "answer", content := c }) now).finalAnswer
      = c ∧
    (processLine st (some { type := "answer", content := c })
        now).reasoningSteps.length = st.reasoningSteps.length ∧
    (∀ (i : Nat) (s : ReasoningStep),
      st.reasoningSteps[i]? = some s → s.status = Status.running →
      ∃ s' : ReasoningStep,
        (processLine st (some { type := "answer", content := c })
          now).reasoningSteps[i]? = some s' ∧
        s'.status = Status.finished ∧ s'.node = s.node) ∧
    (∀ (i : Nat) (s : ReasoningStep),
      st.reasoningSteps[i]? = some s → s.status = Status.finished →
      (processLine st (some { type := "answer", content := c })
          now).reasoningSteps[i]? = some s) := by
  have h1 : (("answer" : String) == "thought") = false := by decide
  have h2 : (("answer" : String) == "answer") = true := by decide
  have hred : processLine st (some { type := "answer", content := c }) now =
      { st with
          finalAnswer := c
          reasoningSteps := st.reasoningSteps.map finishRunning } := by
    simp [processLine, h1, h2, finishRunning]
  rw [hred]
  refine ⟨rfl, by simp, ?_, ?_⟩
  · intro i s hi hs
    refine ⟨{ s with status := Status.finished }, ?_, rfl, rfl⟩
    simp [List.getElem?_map, hi, finishRunning, hs]
  · intro i s hi hs
    simp only [List.getElem?_map, hi, Option.map_some', Option.some.injEq]
    simp [finishRunning, hs]

/-- Witness for C1 at a concrete state with one running and one finished
step. -/
theorem C1_answer_terminal_witness :
    (processLine
        { question := "q",
          reasoningSteps := [⟨"router", Status.running, none⟩,
                             ⟨"responder", Status.finished, some 1⟩],
          finalAnswer := "", isLoading := true, error := "" }
        (some { type := "answer", content := "done" }) 5).finalAnswer = "done" ∧
    (∃ s', (processLine
        { question := "q",
          reasoningSteps := [⟨"router", Status.running, none⟩,
                             ⟨"responder", Status.finished, some 1⟩],
          finalAnswer := "", isLoading := true, error := "" }
        (some { type := "answer", content := "done" }) 5).reasoningSteps[0]? =
          some s' ∧ s'.status = Status.finished ∧ s'.node = "router") ∧
    (processLine
        { question := "q",
          reasoningSteps := [⟨"router", Status.running, none⟩,
                             ⟨"responder", Status.finished, some 1⟩],
          finalAnswer := "", isLoading := true, error := "" }
        (some { type := "answer", content := "done" }) 5).reasoningSteps[1]? =
      some ⟨"responder", Status.finished, some 1⟩ :=
  ⟨(C1_answer_terminal
      { question := "q",
        reasoningSteps := [⟨"router", Status.running, none⟩,
                           ⟨"responder", Status.finished, some 1⟩],
        finalAnswer := "", isLoading := true, error := "" } "done" 5).1,
   (C1_answer_terminal
      { question := "q",
        reasoningSteps := [⟨"router", Status.running, none⟩,
                           ⟨"responder", Status.finished, some 1⟩],
        finalAnswer := "", isLoading := true, error := "" } "done" 5).2.2.1
      0 ⟨"router", Status.running, none⟩ rfl rfl,
   (C1_answer_terminal
      { question := "q",
        reasoningSteps := [⟨"router", Status.running, none⟩,
                           ⟨"responder", Status.finished, some 1⟩],
        finalAnswer := "", isLoading := true, error := "" } "done" 5).2.2.2
      1 ⟨"responder", Status.finished, some 1⟩ rfl rfl⟩

/-- C2: an existing step can show status finished after a transition only
if beforehand it was running or already finished, status error is never
assigned to an existing step that did not already carry it, and every
step appended by envelope processing is created with status running. -/
theorem C2_finished_after_running (st : AppState) (p : Option RawEvent)
    (now : Nat) :
    (∀ (i : Nat) (s s' : ReasoningStep),
      st.reasoningSteps[i]? = some s →
      (processLine st p now).reasoningSteps[i]? = some s' →
      s'.status = Status.finished →
      s.status = Status.running ∨ s.status = Status.finished) ∧
    (∀ (i : Nat) (s s' : ReasoningStep),
      st.reasoningSteps[i]? = some s →
      (processLine st p now).reasoningSteps[i]? = some s' →
      s'.status = Status.error → s.status = Status.error) ∧
    (∀ (i : Nat) (s' : ReasoningStep),
      st.reasoningSteps.length ≤ i →
      (processLine st p now).reasoningSteps[i]? = some s' →
      s'.status = Status.running) := by
  refine ⟨?_, ?_, ?_⟩
  · intro i s s' hs hs' hfin
    rcases processLine_step_rel st p now i s' hs' with ⟨s₀, hs₀, hrel⟩ | ⟨hlen, _⟩
    · rw [hs] at hs₀
      cases hs₀
      rcases hrel with rfl | ⟨hrun, _⟩
      · exact Or.inr hfin
      · exact Or.inl hrun
    · rw [List.getElem?_eq_none hlen] at hs
      cases hs
  · intro i s s' hs hs' herr
    rcases processLine_step_rel st p now i s' hs' with ⟨s₀, hs₀, hrel⟩ | ⟨hlen, _⟩
    · rw [hs] at hs₀
      cases hs₀
      rcases hrel with rfl | ⟨_, rfl⟩
      · exact herr
      · cases herr
    · rw [List.getElem?_eq_none hlen] at hs
      cases hs
  · intro i s' hlen hs'
    rcases processLine_step_rel st p now i s' hs' with ⟨s₀, hs₀, _⟩ | ⟨_, c, hts⟩
    · rw [List.getElem?_eq_none hlen] at hs₀
      cases hs₀
    · exact thoughtStep_status c now s' hts

/-- Witness for C2 at a concrete state with one running step and a
thought envelope that finishes it and appends a running graph step. -/
theorem C2_finished_after_running_witness :
    Status.running = Status.running ∨ Status.running = Status.finished :=
  (C2_finished_after_running
      { question := "q",
        reasoningSteps := [⟨"router", Status.running, none⟩],
        finalAnswer := "", isLoading := true, error := "" }
      (some { type := "thought", content := "Executing step 1" }) 4).1
    0 ⟨"router", Status.running, none⟩ ⟨"router", Status.finished, none⟩
    rfl (by decide) rfl

/-- C3: a thought envelope appends exactly the step dictated by the first
matching keyword of its lowered content (plan: router; executing step:
graph; synthesizing: responder; otherwise nothing), and in every case a
trailing running step is switched to finished at its old position. -/
theorem C3_thought_dispatch (st : AppState) (c : String) (now : Nat) :
    (jsIncludes (jsToLower c) "plan" = true →
      (processLine st (some { type := "thought", content := c })
          now).reasoningSteps.length = st.reasoningSteps.length + 1 ∧
      (processLine st (some { type := "thought", content := c })
          now).reasoningSteps.getLast? =
        some ⟨"router", Status.running, some now⟩) ∧
    (jsIncludes (jsToLower c) "plan" = false →
      jsIncludes (jsToLower c) "executing step" = true →
      (processLine st (some { type := "thought", content := c })
          now).reasoningSteps.length = st.reasoningSteps.length + 1 ∧
      (processLine st (some { type := "thought", content := c })
          now).reasoningSteps.getLast? =
        some ⟨"graph", Status.running, some now⟩) ∧
    (jsIncludes (jsToLower c) "plan" = false →
      jsIncludes (jsToLower c) "executing step" = false →
      jsIncludes (jsToLower c) "synthesizing" = true →
      (processLine st (some { type := "thought", content := c })
          now).reasoningSteps.length = st.reasoningSteps.length + 1 ∧
      (processLine st (some { type := "thought", content := c })
          now).reasoningSteps.getLast? =
        some ⟨"responder", Status.running, some now⟩) ∧
    (jsIncludes (jsToLower c) "plan" = false →
      jsIncludes (jsToLower c) "executing step" = false →
      jsIncludes (jsToLower c) "synthesizing" = false →
      (processLine st (some { type := "thought", content := c })
          now).reasoningSteps.length = st.reasoningSteps.length) ∧
    (∀ s : ReasoningStep, st.reasoningSteps.getLast? = some s →
      s.status = Status.running →
      (processLine st (some { type := "thought", content := c })
          now).reasoningSteps[st.reasoningSteps.length - 1]? =
        some { s with status := Status.finished }) := by
  have hred : (processLine st (some { type := "thought", content := c })
      now).reasoningSteps = processThought st.reasoningSteps c now := by
    simp [processLine]
  refine ⟨?_, ?_, ?_, ?_, ?_⟩
  · intro h
    rw [hred]
    unfold processThought thoughtStep
    rw [if_pos h]
    exact ⟨by simp [finishTrailing_length], by simp⟩
  · intro h1 h2
    rw [hred]
    unfold processThought thoughtStep
    rw [if_neg (by simp [h1]), if_pos h2]
    exact ⟨by simp [finishTrailing_length], by simp⟩
  · intro h1 h2 h3
    rw [hred]
    unfold processThought thoughtStep
    rw [if_neg (by simp [h1]), if_neg (by simp [h2]), if_pos h3]
    exact ⟨by simp [finishTrailing_length], by simp⟩
  · intro h1 h2 h3
    rw [hred]
    unfold processThought thoughtStep
    rw [if_neg (by simp [h1]), if_neg (by simp [h2]), if_neg (by simp [h3])]
    simp [finishTrailing_length]
  · intro s hs hrun
    rw [hred]
    unfold processThought
    have hgs : st.reasoningSteps[st.reasoningSteps.length - 1]? = some s := by
      rw [← List.getLast?_eq_getElem?]
      exact hs
    have hlen : 0 < st.reasoningSteps.length := by
      rcases List.getElem?_eq_some.mp hgs with ⟨h, _⟩
      omega
    rw [List.getElem?_append_left (by rw [finishTrailing_length]; omega)]
    rw [finishTrailing_getElem?, hgs]
    simp only [Option.map_some']
    rw [if_pos ⟨by omega, hrun⟩]

/-- Witness for C3: a planning thought finishes the trailing running step
and appends a running router step. -/
theorem C3_thought_dispatch_witness :
    jsIncludes (jsToLower "Generating plan") "plan" = true ∧
    (processLine
        { question := "q",
          reasoningSteps := [⟨"router", Status.running, some 1⟩],
          finalAnswer := "", isLoading := true, error := "" }
        (some { type := "thought", content := "Generating plan" })
        9).reasoningSteps.length = 1 + 1 ∧
    (processLine
        { question := "q",
          reasoningSteps := [⟨"router", Status.running, some 1⟩],
          finalAnswer := "", isLoading := true, error := "" }
        (some { type := "thought", content := "Generating plan" })
        9).reasoningSteps.getLast? = some ⟨"router", Status.running, some 9⟩ :=
  ⟨by decide,
   (C3_thought_dispatch
      { question := "q",
        reasoningSteps := [⟨"router", Status.running, some 1⟩],
        finalAnswer := "", isLoading := true, error := "" }
      "Generating plan" 9).1 (by decide)⟩

/-- C9: a data line whose payload is not valid JSON, or whose parsed type
is neither thought nor answer, leaves the state unchanged, and processing
of the remaining lines proceeds from that unchanged state. -/
theorem C9_bad_lines_inert (st : AppState) (t c : String) (now : Nat)
    (rest : List (Option RawEvent × Nat))
    (ht : t ≠ "thought") (ha : t ≠ "answer") :
    processLine st none now = st ∧
    processLine st (some { type := t, content := c }) now = st ∧
    processLines st ((none, now) :: rest) = processLines st rest ∧
    processLines st ((some { type := t, content := c }, now) :: rest) =
      processLines st rest := by
  have h2 : processLine st (some { type := t, content := c }) now = st := by
    simp [processLine, ht, ha]
  refine ⟨rfl, h2, rfl, ?_⟩
  simp [processLines, h2]

/-- Witness for C9 at a concrete state and an event of type "status". -/
theorem C9_bad_lines_inert_witness :
    ("status" : String) ≠ "thought" ∧ ("status" : String) ≠ "answer" ∧
    processLine
        { question := "q",
          reasoningSteps := [{ node := "router", status := Status.running,
                               timestamp := none }],
          finalAnswer := "", isLoading := true, error := "" }
        (some { type := "status", content := "x" }) 3 =
      { question := "q",
        reasoningSteps := [{ node := "router", status := Status.running,
                             timestamp := none }],
        finalAnswer := "", isLoading := true, error := "" } :=
  ⟨by decide, by decide,
    (C9_bad_lines_inert _ "status" "x" 3 [] (by decide) (by decide)).2.1⟩

/-- C7: `submit_document` rejects an oversized or unsupported payload with
a ValidationError and schedules no background work for it; an accepted
document is appended to the background processing queue and the call
returns with the source id. -/
theorem C7_submit_document_validation (st : IngestionState) (doc : Document)
    (sid : String) :
    (sizeLimitBytes < doc.size ∨ doc.format ∉ supportedFormats →
      (∃ m, (submit_document st doc sid).2 = SubmitOutcome.validationError m) ∧
        (submit_document st doc sid).1 = st) ∧
    (doc.size ≤ sizeLimitBytes → doc.format ∈ supportedFormats →
      (submit_document st doc sid).2 = SubmitOutcome.accepted sid ∧
        (submit_document st doc sid).1.scheduled = st.scheduled ++ [sid]) := by
  constructor
  · rintro (h | h)
    · simp [submit_document, h]
    · by_cases hs : sizeLimitBytes < doc.size
      · simp [submit_document, hs]
      · simp [submit_document, hs, h]
  · intro h1 h2
    simp [submit_document, Nat.not_lt.mpr h1, h2]

/-- Witness for C7: a 7MB PDF is rejected without scheduling work, and a
small PDF is accepted and scheduled. -/
theorem C7_submit_document_validation_witness :
    ((∃ m, (submit_document ⟨[]⟩ ⟨7000000, "pdf"⟩ "s1").2 =
        SubmitOutcome.validationError m) ∧
      (submit_document ⟨[]⟩ ⟨7000000, "pdf"⟩ "s1").1 = ⟨[]⟩) ∧
    ((submit_document ⟨[]⟩ ⟨100, "pdf"⟩ "s2").2 = SubmitOutcome.accepted "s2" ∧
      (submit_document ⟨[]⟩ ⟨100, "pdf"⟩ "s2").1.scheduled = [] ++ ["s2"]) :=
  ⟨(C7_submit_document_validation ⟨[]⟩ ⟨7000000, "pdf"⟩ "s1").1
      (Or.inl (by decide)),
   (C7_submit_document_validation ⟨[]⟩ ⟨100, "pdf"⟩ "s2").2
      (by decide) (by decide)⟩

/-- C4: envelope processing is append-only and order-preserving on the
step list: over any processed line sequence the list never shrinks, and
every index that existed before still carries the same node name. -/
theorem C4_append_only (st : AppState) (ls : List (Option RawEvent × Nat)) :
    st.reasoningSteps.length ≤ (processLines st ls).reasoningSteps.length ∧
    ∀ i : Nat, i < st.reasoningSteps.length →
      ((processLines st ls).reasoningSteps[i]?).map ReasoningStep.node =
        (st.reasoningSteps[i]?).map ReasoningStep.node := by
  induction ls generalizing st with
  | nil => exact ⟨Nat.le_refl _, fun i _ => rfl⟩
  | cons hd tl ih =>
    have hmono := processLine_length_mono st hd.1 hd.2
    have heq : processLines st (hd :: tl) =
        processLines (processLine st hd.1 hd.2) tl := rfl
    obtain ⟨ih1, ih2⟩ := ih (processLine st hd.1 hd.2)
    rw [heq]
    refine ⟨Nat.le_trans hmono ih1, ?_⟩
    intro i hi
    rw [ih2 i (Nat.lt_of_lt_of_le hi hmono)]
    exact processLine_node_preserved st hd.1 hd.2 i hi

/-- Witness for C4 at a concrete state with one step and a synthesizing
thought line. -/
theorem C4_append_only_witness :
    1 ≤ (processLines
        { question := "q",
          reasoningSteps := [⟨"graph", Status.running, none⟩],
          finalAnswer := "", isLoading := true, error := "" }
        [(some { type := "thought", content := "Synthesizing answer" }, 2)]
        ).reasoningSteps.length ∧
    ((processLines
        { question := "q",
          reasoningSteps := [⟨"graph", Status.running, none⟩],
          finalAnswer := "", isLoading := true, error := "" }
        [(some { type := "thought", content := "Synthesizing answer" }, 2)]
        ).reasoningSteps[0]?).map ReasoningStep.node =
      (([⟨"graph", Status.running, none⟩] :
          List ReasoningStep)[0]?).map ReasoningStep.node :=
  ⟨(C4_append_only
      { question := "q",
        reasoningSteps := [⟨"graph", Status.running, none⟩],
        finalAnswer := "", isLoading := true, error := "" }
      [(some { type := "thought", content := "Synthesizing answer" }, 2)]).1,
   (C4_append_only
      { question := "q",
        reasoningSteps := [⟨"graph", Status.running, none⟩],
        finalAnswer := "", isLoading := true, error := "" }
      [(some { type := "thought", content := "Synthesizing answer" }, 2)]).2
      0 (by decide)⟩

/-- C6: an execution of `handleSubmit` that starts processing always ends
with the loading flag cleared, and when the fetch or stream read throws
the error state carries the fixed non-empty connection message. -/
theorem C6_no_silent_end (st : AppState) (f : FetchOutcome)
    (hq : st.question ≠ "") (hl : st.isLoading = false) :
    (handleSubmit st f).isLoading = false ∧
    (f.throwsAfter = true →
      (handleSubmit st f).error = connectionErrorMessage ∧
      (handleSubmit st f).error ≠ "") := by
  have hcond : (st.question == "" || st.isLoading) = false := by
    simp [hl, hq]
  constructor
  · simp [handleSubmit, hcond]
  · intro hth
    have herr : (handleSubmit st f).error = connectionErrorMessage := by
      simp [handleSubmit, hcond, hth]
    refine ⟨herr, ?_⟩
    rw [herr]
    decide

/-- Witness for C6 at a nonempty question, idle state, and a fetch that
throws before delivering any line. -/
theorem C6_no_silent_end_witness :
    ("q" : String) ≠ "" ∧
    (handleSubmit
        { question := "q", reasoningSteps := [], finalAnswer := "",
          isLoading := false, error := "" }
        { lines := [], throwsAfter := true }).isLoading = false ∧
    (handleSubmit
        { question := "q", reasoningSteps := [], finalAnswer := "",
          isLoading := false, error := "" }
        { lines := [], throwsAfter := true }).error ≠ "" :=
  ⟨by decide,
   (C6_no_silent_end
      { question := "q", reasoningSteps := [], finalAnswer := "",
        isLoading := false, error := "" }
      { lines := [], throwsAfter := true } (by decide) rfl).1,
   ((C6_no_silent_end
      { question := "q", reasoningSteps := [], finalAnswer := "",
        isLoading := false, error := "" }
      { lines := [], throwsAfter := true } (by decide) rfl).2 rfl).2⟩

/-- C8: from any state satisfying the single-trailing-running invariant
(as the empty list of a fresh query does), any processed line sequence
leaves at most one running step, and a running step can only be the last
element of the list. -/
theorem C8_at_most_one_running (st : AppState)
    (ls : List (Option RawEvent × Nat))
    (h : runningOnlyLast st.reasoningSteps = true) :
    runningOnlyLast (processLines st ls).reasoningSteps = true ∧
    ((processLines st ls).reasoningSteps.filter
      (fun s => s.status == Status.running)).length ≤ 1 ∧
    (∀ (i : Nat) (s : ReasoningStep),
      (processLines st ls).reasoningSteps[i]? = some s →
      s.status = Status.running →
      i + 1 = (processLines st ls).reasoningSteps.length) := by
  have hpres := processLines_runningOnlyLast ls st h
  exact ⟨hpres, runningOnlyLast_count _ hpres,
    runningOnlyLast_last_index _ hpres⟩

/-- Witness for C8 at a fresh query state and two consecutive thought
lines. -/
theorem C8_at_most_one_running_witness :
    runningOnlyLast (([] : List ReasoningStep)) = true ∧
    ((processLines
        { question := "q", reasoningSteps := [], finalAnswer := "",
          isLoading := true, error := "" }
        [(some { type := "thought", content := "Generating plan" }, 1),
         (some { type := "thought", content := "Executing step 1" }, 2)]
        ).reasoningSteps.filter
          (fun s => s.status == Status.running)).length ≤ 1 :=
  ⟨rfl,
   (C8_at_most_one_running
      { question := "q", reasoningSteps := [], finalAnswer := "",
        isLoading := true, error := "" }
      [(some { type := "thought", content := "Generating plan" }, 1),
       (some { type := "thought", content := "Executing step 1" }, 2)]
      rfl).2.1⟩

/-- Every step of `finishTrailing l` satisfies `streamStepOk` when every
step of `l` does. -/
theorem finishTrailing_all_ok (l : List ReasoningStep)
    (h : l.all streamStepOk = true) :
    (finishTrailing l).all streamStepOk = true := by
  rw [List.all_eq_true] at h ⊢
  intro x hx
  rcases List.mem_iff_getElem?.mp hx with ⟨i, hi⟩
  rw [finishTrailing_getElem?] at hi
  cases hsi : l[i]? with
  | none => rw [hsi] at hi; cases hi
  | some s =>
    rw [hsi] at hi
    simp only [Option.map_some', Option.some.injEq] at hi
    have hs := h s (List.mem_iff_getElem?.mpr ⟨i, hsi⟩)
    rw [← hi]
    by_cases hcond : i + 1 = l.length ∧ s.status = Status.running
    · rw [if_pos hcond]
      unfold streamStepOk at hs ⊢
      simp only [Bool.and_eq_true] at hs
      simp [hs.1]
    · rw [if_neg hcond]
      exact hs

/-- Every step dispatched by `thoughtStep` satisfies `streamStepOk`. -/
theorem thoughtStep_ok (c : String) (now : Nat) (s : ReasoningStep)
    (h : thoughtStep c now = some s) : streamStepOk s = true := by
  have hn := thoughtStep_node c now s h
  have hs := thoughtStep_status c now s h
  unfold streamStepOk
  rcases hn with hn | hn | hn <;> simp [hn, hs]

/-- The answer-envelope updater preserves `streamStepOk` pointwise. -/
theorem map_finishRunning_all_ok (l : List ReasoningStep)
    (h : l.all streamStepOk = true) :
    (l.map finishRunning).all streamStepOk = true := by
  rw [List.all_map, List.all_eq_true]
  rw [List.all_eq_true] at h
  intro s hs
  have hok := h s hs
  simp only [Function.comp]
  unfold finishRunning
  cases hc : s.status == Status.running
  · simpa using hok
  · unfold streamStepOk at hok ⊢
    simp only [Bool.and_eq_true] at hok
    simp [hok.1]

/-- Processing one line preserves `streamStepOk` for all steps. -/
theorem processLine_all_ok (st : AppState) (p : Option RawEvent) (now : Nat)
    (h : st.reasoningSteps.all streamStepOk = true) :
    (processLine st p now).reasoningSteps.all streamStepOk = true := by
  rcases processLine_steps_cases st p now with hc | ⟨c, hc⟩ | hc
  · rw [hc]; exact h
  · rw [hc]
    unfold processThought
    rw [List.all_append]
    have h1 := finishTrailing_all_ok st.reasoningSteps h
    cases hts : thoughtStep c now with
    | none => simp [h1]
    | some stp => simp [h1, thoughtStep_ok c now stp hts]
  · rw [hc]
    exact map_finishRunning_all_ok _ h

/-- Processing any line sequence preserves `streamStepOk` for all steps. -/
theorem processLines_all_ok (ls : List (Option RawEvent × Nat)) :
    ∀ st : AppState, st.reasoningSteps.all streamStepOk = true →
      (processLines st ls).reasoningSteps.all streamStepOk = true := by
  induction ls with
  | nil => intro st h; exact h
  | cons hd tl ih =>
    intro st h
    exact ih _ (processLine_all_ok st hd.1 hd.2 h)

/-- C10: from any state whose steps all satisfy the stream-path shape (as
the empty list of a fresh query does), the stream handler never produces
a vectorstore step nor an error status: every step has node router, graph
or responder, and status running or finished. -/
theorem C10_no_vectorstore_no_error (st : AppState)
    (ls : List (Option RawEvent × Nat))
    (h : st.reasoningSteps.all streamStepOk = true) :
    (processLines st ls).reasoningSteps.all streamStepOk = true ∧
    ∀ s : ReasoningStep, s ∈ (processLines st ls).reasoningSteps →
      (s.node = "router" ∨ s.node = "graph" ∨ s.node = "responder") ∧
      (s.status = Status.running ∨ s.status = Status.finished) := by
  have hall := processLines_all_ok ls st h
  refine ⟨hall, ?_⟩
  intro s hs
  have hok := List.all_eq_true.mp hall s hs
  unfold streamStepOk at hok
  simp only [Bool.and_eq_true, Bool.or_eq_true, beq_iff_eq] at hok
  exact ⟨or_assoc.mp hok.1, hok.2⟩

/-- Witness for C10 at a fresh query state, a planning thought and an
answer line. -/
theorem C10_no_vectorstore_no_error_witness :
    (([] : List ReasoningStep)).all streamStepOk = true ∧
    (processLines
        { question := "q", reasoningSteps := [], finalAnswer := "",
          isLoading := true, error := "" }
        [(some { type := "thought", content := "Generating plan" }, 1),
         (some { type := "answer", content := "done" }, 2)]
        ).reasoningSteps.all streamStepOk = true :=
  ⟨rfl,
   (C10_no_vectorstore_no_error
      { question := "q", reasoningSteps := [], finalAnswer := "",
        isLoading := true, error := "" }
      [(some { type := "thought", content := "Generating plan" }, 1),
       (some { type := "answer", content := "done" }, 2)] rfl).1⟩

end CortexAI
